import Mathlib

/-!
Shallow embedding of the reactive state engine of the `lab9-the-final-warmup`
task-list application: the `TodoModel` class (src/models/todo-model.js), the
`StorageService.clear` namespace behaviour (src/services/storage-service.js),
and the auto-clear scheduler of the `TodoApp` controller
(src/components/todo-app.js).

Modelling conventions:
* JavaScript argument values that may be non-strings are modelled by `JSVal`;
  `typeof text === 'string' ? text.trim() : ''` becomes `jsToTrimmed`.
* `String.prototype.trim` is modelled on the character list (`jsTrim`); the
  JS whitespace set is approximated by `Char.isWhitespace`, which covers every
  character the repository ever passes (spaces, tabs, newlines).
* Side effects of a mutation (storage writes, subscriber notifications) are
  reified as an `Event` list returned next to the new state, in the order the
  JS code performs them; `#commit` becomes `commit`.
* The subscriber `Set` is a duplicate-free `List Nat` of callback identities
  (a JS `Set` keyed on function reference identity, insertion order);
  `Set.add` is `setAdd`, `Set.delete` is removal of the element.
* `new Date().toISOString()` is nondeterministic, so creation timestamps are
  passed in as an explicit `now : String` argument.
-/

namespace TodoSpec

/-- A JavaScript value as passed to `addTodo` / `updateTodo`. -/
inductive JSVal where
  | str (s : String)
  | num (n : Int)
  | undefined
  | null
  | obj
deriving DecidableEq, Repr

/-- Is the value a string (`typeof v === 'string'`)? -/
def JSVal.isStr : JSVal → Bool
  | .str _ => true
  | _ => false

/-- `String.prototype.trim`: drop leading and trailing whitespace. -/
def jsTrim (s : String) : String :=
  ⟨((s.data.dropWhile Char.isWhitespace).reverse.dropWhile Char.isWhitespace).reverse⟩

/-- `typeof text === 'string' ? text.trim() : ''` (todo-model.js lines 54, 129). -/
def jsToTrimmed (v : JSVal) : String :=
  match v with
  | .str s => jsTrim s
  | _ => ""

/-- One todo item as created by `addTodo` (todo-model.js lines 59-65). -/
structure Item where
  id : Nat
  text : String
  completed : Bool
  createdAt : String
  wasCounted : Bool
deriving DecidableEq, Repr

/-- The in-memory state of a `TodoModel` instance: the `todos` array, the
`#nextId` and `#completedTotal` private counters, and the `#listeners` set
(listener identities in insertion order, duplicate-free by `Set` semantics). -/
structure ModelState where
  todos : List Item
  nextId : Nat
  completedTotal : Nat
  listeners : List Nat
deriving DecidableEq, Repr

/-- A value handed to the storage collaborator's `save`. -/
inductive SavedValue where
  | items (ts : List Item)
  | num (n : Nat)
deriving DecidableEq, Repr

/-- An observable side effect of a mutation: a `storage.save(key, value)`
call or the invocation of one subscriber callback. -/
inductive Event where
  | save (key : String) (value : SavedValue)
  | notifyListener (l : Nat)
deriving DecidableEq, Repr

/-- `#persist` (todo-model.js lines 211-215): the three `save` calls, in
source order. -/
def persistEvents (s : ModelState) : List Event :=
  [Event.save "items" (SavedValue.items s.todos),
   Event.save "nextId" (SavedValue.num s.nextId),
   Event.save "completedTotal" (SavedValue.num s.completedTotal)]

/-- `notify` (todo-model.js lines 44-46): invoke every registered listener. -/
def notifyEvents (s : ModelState) : List Event :=
  s.listeners.map Event.notifyListener

/-- `#commit(didChange)` (todo-model.js lines 197-205): on `false` report no
change with no side effects; on `true` persist, then notify, then report
`true`.  The state fields were already assigned by the caller, so the state
passes through unchanged. -/
def commit (didChange : Bool) (s : ModelState) : ModelState × Bool × List Event :=
  if didChange then (s, true, persistEvents s ++ notifyEvents s) else (s, false, [])

/-- `addTodo(text)` (todo-model.js lines 53-70). -/
def addTodo (text : JSVal) (now : String) (s : ModelState) :
    ModelState × Bool × List Event :=
  let trimmed := jsToTrimmed text
  if trimmed = "" then (s, false, [])
  else
    let todo : Item :=
      { id := s.nextId, text := trimmed, completed := false,
        createdAt := now, wasCounted := false }
    commit true { s with nextId := s.nextId + 1, todos := s.todos ++ [todo] }

/-- The body of the `todos.map` callback in `toggleComplete`
(todo-model.js lines 81-100), threading the `updated` flag and the
`nextCompletedTotal` accumulator through the list left to right. -/
def toggleMap (id : Nat) : List Item → Nat → List Item × Bool × Nat
  | [], total => ([], false, total)
  | todo :: rest, total =>
    if todo.id ≠ id then
      let r := toggleMap id rest total
      (todo :: r.1, r.2.1, r.2.2)
    else
      let toggled := { todo with completed := !todo.completed }
      let step :=
        if !todo.completed && toggled.completed && !todo.wasCounted then
          ({ toggled with wasCounted := true }, total + 1)
        else
          ({ toggled with wasCounted := todo.wasCounted }, total)
      let r := toggleMap id rest step.2
      (step.1 :: r.1, true, r.2.2)

/-- `toggleComplete(id)` (todo-model.js lines 77-107). -/
def toggleComplete (id : Nat) (s : ModelState) : ModelState × Bool × List Event :=
  let r := toggleMap id s.todos s.completedTotal
  let s' :=
    if r.2.1 then { s with todos := r.1, completedTotal := r.2.2 }
    else { s with todos := r.1 }
  commit r.2.1 s'

/-- `deleteTodo(id)` (todo-model.js lines 114-120).  `completedTotal` is left
unchanged: it reflects lifetime completions. -/
def deleteTodo (id : Nat) (s : ModelState) : ModelState × Bool × List Event :=
  let nextTodos := s.todos.filter (fun todo => todo.id != id)
  let didChange := nextTodos.length != s.todos.length
  let s' := if didChange then { s with todos := nextTodos } else s
  commit didChange s'

/-- The body of the `todos.map` callback in `updateTodo`
(todo-model.js lines 135-146), threading the `updated` flag. -/
def updateMap (id : Nat) (trimmed : String) : List Item → List Item × Bool
  | [] => ([], false)
  | todo :: rest =>
    let r := updateMap id trimmed rest
    if todo.id ≠ id then (todo :: r.1, r.2)
    else if todo.text = trimmed then (todo :: r.1, r.2)
    else ({ todo with text := trimmed } :: r.1, true)

/-- `updateTodo(id, newText)` (todo-model.js lines 128-149). -/
def updateTodo (id : Nat) (newText : JSVal) (s : ModelState) :
    ModelState × Bool × List Event :=
  let trimmed := jsToTrimmed newText
  if trimmed = "" then (s, false, [])
  else
    let r := updateMap id trimmed s.todos
    commit r.2 { s with todos := r.1 }

/-- `clearCompleted()` (todo-model.js lines 155-160). -/
def clearCompleted (s : ModelState) : ModelState × Bool × List Event :=
  let nextTodos := s.todos.filter (fun todo => !todo.completed)
  let didChange := nextTodos.length != s.todos.length
  let s' := if didChange then { s with todos := nextTodos } else s
  commit didChange s'

/-- `clearAll()` (todo-model.js lines 166-175). -/
def clearAll (s : ModelState) : ModelState × Bool × List Event :=
  if s.todos.length = 0 ∧ s.nextId = 1 then (s, false, [])
  else commit true { s with todos := [], nextId := 1, completedTotal := 0 }

/-- `get activeCount` (todo-model.js lines 181-183), via `reduce`. -/
def activeCount (s : ModelState) : Nat :=
  s.todos.foldl (fun count todo => if todo.completed then count else count + 1) 0

/-- `get completedCount` (todo-model.js lines 189-191): the lifetime counter. -/
def completedCount (s : ModelState) : Nat :=
  s.completedTotal

/-- `Set.add`: append if not already present (JS `Set` insertion order,
reference identity). -/
def setAdd (ls : List Nat) (l : Nat) : List Nat :=
  if ls.contains l then ls else ls ++ [l]

/-- `subscribe(listener)` (todo-model.js lines 33-38): add the callback to
the listener set. -/
def subscribe (l : Nat) (s : ModelState) : ModelState :=
  { s with listeners := setAdd s.listeners l }

/-- Running the unsubscribe closure returned by `subscribe` (todo-model.js
lines 35-37): `#listeners.delete(listener)`. -/
def runUnsubscribe (l : Nat) (s : ModelState) : ModelState :=
  { s with listeners := s.listeners.filter (fun x => x != l) }

/-- One mutating call on the model, quantifying over every mutating public
operation. -/
inductive Op where
  | add (text : JSVal) (now : String)
  | toggle (id : Nat)
  | delete (id : Nat)
  | update (id : Nat) (text : JSVal)
  | clearCompleted
  | clearAll
deriving DecidableEq, Repr

/-- Dispatch one mutating operation. -/
def step : Op → ModelState → ModelState × Bool × List Event
  | .add text now, s => addTodo text now s
  | .toggle id, s => toggleComplete id s
  | .delete id, s => deleteTodo id s
  | .update id text, s => updateTodo id text s
  | .clearCompleted, s => clearCompleted s
  | .clearAll, s => clearAll s

/-! ## StorageService (src/services/storage-service.js) -/

/-- `String.prototype.startsWith`, modelled on character lists. -/
def jsStartsWith (s pre : String) : Bool :=
  pre.data.isPrefixOf s.data

/-- `#buildKey(keySuffix)` (storage-service.js lines 157-159). -/
def buildKey (storageKey keySuffix : String) : String :=
  storageKey ++ "_" ++ keySuffix

/-- The backing `localStorage`: an association list of key/value entries with
distinct keys (`key(index)` enumerates, `removeItem` deletes by key). -/
def Backing := List (String × String)

/-- `StorageService.clear()` (storage-service.js lines 138-155): collect every
backing key that is truthy and starts with the raw `#storageKey` string, then
remove each collected key. -/
def storageClear (storageKey : String) (backing : List (String × String)) :
    List (String × String) :=
  let keysToRemove :=
    (backing.map Prod.fst).filter (fun k => k != "" && jsStartsWith k storageKey)
  keysToRemove.foldl (fun b k => b.filter (fun kv => kv.1 != k)) backing

/-! ## Persisted snapshots and the `TodoModel` constructor
(todo-model.js lines 14-26) -/

/-- An item as it sits in storage after the JSON round-trip: the `wasCounted`
field may be absent on legacy data (`todo.wasCounted ?? false`). -/
structure StoredItem where
  id : Nat
  text : String
  completed : Bool
  createdAt : String
  wasCounted : Option Bool
deriving DecidableEq, Repr

/-- JSON serialization of an in-memory item: every field is written. -/
def Item.toStored (t : Item) : StoredItem :=
  { id := t.id, text := t.text, completed := t.completed,
    createdAt := t.createdAt, wasCounted := some t.wasCounted }

/-- The constructor's normalisation of one stored item:
`{ ...todo, wasCounted: todo.wasCounted ?? false }` (lines 18-21). -/
def StoredItem.toItem (t : StoredItem) : Item :=
  { id := t.id, text := t.text, completed := t.completed,
    createdAt := t.createdAt, wasCounted := t.wasCounted.getD false }

/-- The storage collaborator's contents under this model's three keys; `none`
means the key is absent (or failed to deserialize), in which case `load`
returns the default. -/
structure StorageState where
  items : Option (List StoredItem)
  nextId : Option Nat
  completedTotal : Option Nat
deriving DecidableEq, Repr

/-- `Number.parseInt(x, 10) || d` for a stored natural number `x`: `0` is
falsy, every other natural is truthy. -/
def jsParsedOr (n d : Nat) : Nat :=
  if n = 0 then d else n

/-- The `TodoModel` constructor (todo-model.js lines 14-26): load the items
list (defaulting to `[]`), normalise `wasCounted`, and parse the two counters
with their `|| 1` / `|| 0` fallbacks.  A fresh instance has no listeners. -/
def loadModel (σ : StorageState) : ModelState :=
  { todos := (σ.items.getD []).map StoredItem.toItem,
    nextId := jsParsedOr (σ.nextId.getD 1) 1,
    completedTotal := jsParsedOr (σ.completedTotal.getD 0) 0,
    listeners := [] }

/-- Apply one effect event to the storage collaborator: a `save` overwrites
the corresponding key with the serialized value; notifications do not touch
storage. -/
def applyEvent (σ : StorageState) : Event → StorageState
  | .save key v =>
    if key = "items" then
      match v with
      | .items ts => { σ with items := some (ts.map Item.toStored) }
      | _ => σ
    else if key = "nextId" then
      match v with
      | .num n => { σ with nextId := some n }
      | _ => σ
    else if key = "completedTotal" then
      match v with
      | .num n => { σ with completedTotal := some n }
      | _ => σ
    else σ
  | .notifyListener _ => σ

/-- One mutating operation with its persistence effects threaded into the
storage collaborator. -/
def stepPersist (op : Op) (p : ModelState × StorageState) :
    ModelState × StorageState :=
  let r := step op p.1
  (r.1, r.2.2.foldl applyEvent p.2)

/-- A whole session: construct the model from storage, then run a sequence of
mutating operations, accumulating persisted snapshots. -/
def runPersist (ops : List Op) (p : ModelState × StorageState) :
    ModelState × StorageState :=
  ops.foldl (fun acc op => stepPersist op acc) p

/-! ## The auto-clear scheduler (src/components/todo-app.js) -/

/-- Controller-level state: the owned model, the `pendingDeletionIds` set and
the key set of the `autoClearTimers` map (armed timer handles per id). -/
structure AppState where
  model : ModelState
  pending : List Nat
  timers : List Nat
deriving DecidableEq, Repr

/-- `markPendingDeletion(id)` (todo-app.js lines 368-372). -/
def markPendingDeletion (id : Nat) (a : AppState) : AppState :=
  { a with pending := setAdd a.pending id }

/-- `unmarkPendingDeletion(id)` (todo-app.js lines 398-405). -/
def unmarkPendingDeletion (id : Nat) (a : AppState) : AppState :=
  if a.pending.contains id then
    { a with pending := a.pending.filter (fun x => x != id) }
  else a

/-- `cancelAutoClear(id)` (todo-app.js lines 349-356): clear and drop the
timer if one is armed, then unmark the pending flag. -/
def cancelAutoClear (id : Nat) (a : AppState) : AppState :=
  let a' :=
    if a.timers.contains id then
      { a with timers := a.timers.filter (fun x => x != id) }
    else a
  unmarkPendingDeletion id a'

/-- `scheduleAutoClear(id)` (todo-app.js lines 330-343): cancel any previous
timer for the id, mark it pending, and arm a fresh timer. -/
def scheduleAutoClear (id : Nat) (a : AppState) : AppState :=
  let a1 := cancelAutoClear id a
  let a2 := markPendingDeletion id a1
  { a2 with timers := setAdd a2.timers id }

/-- The `setTimeout` callback body of `scheduleAutoClear` (todo-app.js lines
333-340): re-read the item's current state, delete it only when it is still
present and still completed, then drop the timer handle and the pending
flag. -/
def fireAutoClear (id : Nat) (a : AppState) : AppState :=
  let model' :=
    match a.model.todos.find? (fun item => item.id == id) with
    | some todo => if todo.completed then (deleteTodo id a.model).1 else a.model
    | none => a.model
  unmarkPendingDeletion id
    { a with model := model', timers := a.timers.filter (fun x => x != id) }

/-- `handleToggleTodo` for a numeric id (todo-app.js lines 208-225): toggle in
the model; when the toggle changed something, re-read the item and either arm
the auto-clear timer (now completed) or cancel it (now incomplete or gone). -/
def handleToggleTodo (id : Nat) (a : AppState) : AppState :=
  let r := toggleComplete id a.model
  let a' := { a with model := r.1 }
  if !r.2.1 then a'
  else
    match a'.model.todos.find? (fun item => item.id == id) with
    | some todo =>
      if todo.completed then scheduleAutoClear id a' else cancelAutoClear id a'
    | none => cancelAutoClear id a'

/-! ## Closed forms for the mapped mutation bodies -/

/-- The net effect of `toggleComplete`'s map body on the matching item:
flip `completed`; on an incomplete-to-complete flip of a never-counted item
also set `wasCounted`. -/
def toggleItem (t : Item) : Item :=
  if !t.completed && !t.wasCounted then
    { t with completed := true, wasCounted := true }
  else
    { t with completed := !t.completed }

/-- `toggleComplete`'s map body as a pure per-element function. -/
def toggleApply (id : Nat) (t : Item) : Item :=
  if t.id == id then toggleItem t else t

/-- Does this element contribute `+1` to `completedTotal` in `toggleComplete`? -/
def toggleCounts (id : Nat) (t : Item) : Bool :=
  t.id == id && !t.completed && !t.wasCounted

theorem toggleItem_id (t : Item) : (toggleItem t).id = t.id := by
  unfold toggleItem
  split <;> rfl

theorem toggleApply_id (id : Nat) (t : Item) : (toggleApply id t).id = t.id := by
  unfold toggleApply
  split <;> simp [toggleItem_id]

theorem toggleMap_eq (id : Nat) (todos : List Item) (total : Nat) :
    toggleMap id todos total =
      (todos.map (toggleApply id), todos.any (fun t => t.id == id),
        total + todos.countP (toggleCounts id)) := by
  induction todos generalizing total with
  | nil => simp [toggleMap]
  | cons todo rest ih =>
    by_cases h : todo.id = id
    · have hcount : toggleCounts id todo = (!todo.completed && !todo.wasCounted) := by
        simp [toggleCounts, h, Bool.and_assoc]
      cases hc : todo.completed <;> cases hw : todo.wasCounted <;>
        (simp [toggleMap, h, ih, toggleApply, toggleItem, hc, hw,
          List.countP_cons, hcount]; try omega)
    · have hcount : toggleCounts id todo = false := by
        simp [toggleCounts, h]
      simp [toggleMap, h, ih, toggleApply, List.countP_cons, hcount]

/-- `updateTodo`'s map body as a pure per-element function. -/
def updateApply (id : Nat) (trimmed : String) (t : Item) : Item :=
  if t.id == id && t.text != trimmed then { t with text := trimmed } else t

theorem updateMap_eq (id : Nat) (trimmed : String) (todos : List Item) :
    updateMap id trimmed todos =
      (todos.map (updateApply id trimmed),
        todos.any (fun t => t.id == id && t.text != trimmed)) := by
  induction todos with
  | nil => simp [updateMap]
  | cons todo rest ih =>
    by_cases h : todo.id = id
    · by_cases ht : todo.text = trimmed
      · simp [updateMap, h, ht, ih, updateApply]
      · simp [updateMap, h, ht, ih, updateApply]
    · simp [updateMap, h, ih, updateApply]

theorem map_eq_self_of_fixed {α : Type} {l : List α} {f : α → α}
    (h : ∀ x ∈ l, f x = x) : l.map f = l := by
  calc l.map f = l.map id := List.map_congr_left h
  _ = l := List.map_id l

/-! ## The commit protocol -/

theorem commit_false (s : ModelState) : commit false s = (s, false, []) := rfl

theorem commit_true (s : ModelState) :
    commit true s = (s, true, persistEvents s ++ notifyEvents s) := rfl

/-- A reported-no-change mutation leaves the state untouched and performs no
side effect at all. -/
theorem step_no_change (op : Op) (s : ModelState)
    (h : (step op s).2.1 = false) :
    (step op s).1 = s ∧ (step op s).2.2 = [] := by
  cases op with
  | add text now =>
    simp only [step, addTodo] at *
    split at h
    · split <;> simp_all
    · rw [commit_true] at h
      exact absurd h (by simp)
  | toggle id =>
    simp only [step, toggleComplete, toggleMap_eq] at *
    rcases hany : List.any s.todos fun t => t.id == id with _ | _
    · have hfix : s.todos.map (toggleApply id) = s.todos := by
        refine map_eq_self_of_fixed fun t ht => ?_
        have : (t.id == id) = false := by
          have h' := List.any_eq_false.mp hany t ht
          simpa using h'
        simp [toggleApply, this]
      simp [hany, hfix, commit_false]
    · rw [hany] at h
      simp [commit_true] at h
  | delete id =>
    simp only [step, deleteTodo] at *
    rcases hlen : ((s.todos.filter fun todo => todo.id != id).length
        != s.todos.length) with _ | _
    · simp [hlen, commit_false]
    · rw [hlen] at h
      simp [commit_true] at h
  | update id text =>
    simp only [step, updateTodo, updateMap_eq] at *
    split at h
    · simp_all
    · rcases hany : List.any s.todos fun t => t.id == id && t.text != jsToTrimmed text
          with _ | _
      · have hfix : s.todos.map (updateApply id (jsToTrimmed text)) = s.todos := by
          refine map_eq_self_of_fixed fun t ht => ?_
          have h' := List.any_eq_false.mp hany t ht
          simp only [Bool.and_eq_true, not_and, Bool.not_eq_true] at h'
          by_cases hid : (t.id == id) = true
          · simp [updateApply, hid, h' hid]
          · simp only [Bool.not_eq_true] at hid
            simp [updateApply, hid]
        simp [hany, hfix, commit_false]
      · rw [hany] at h
        simp [commit_true] at h
  | clearCompleted =>
    simp only [step, clearCompleted] at *
    rcases hlen : ((s.todos.filter fun todo => !todo.completed).length
        != s.todos.length) with _ | _
    · simp [hlen, commit_false]
    · rw [hlen] at h
      simp [commit_true] at h
  | clearAll =>
    simp only [step, clearAll] at *
    split at h
    · simp_all
    · rw [commit_true] at h
      exact absurd h (by simp)

/-- A committed mutation's side effects are exactly: persist the full new
snapshot, then notify every current listener once each, in that order; and
no mutating operation touches the listener set. -/
theorem step_committed (op : Op) (s : ModelState)
    (h : (step op s).2.1 = true) :
    (step op s).2.2 =
        persistEvents (step op s).1 ++
          ((step op s).1.listeners.map Event.notifyListener) ∧
      (step op s).1.listeners = s.listeners := by
  have hl : (step op s).1.listeners = s.listeners := by
    cases op <;>
      simp only [step, addTodo, toggleComplete, deleteTodo, updateTodo,
        clearCompleted, clearAll, commit] <;>
      split <;> (try split) <;> rfl
  refine ⟨?_, hl⟩
  cases op <;>
    simp only [step, addTodo, toggleComplete, deleteTodo, updateTodo,
      clearCompleted, clearAll, commit] at h ⊢ <;>
    split at h <;> simp_all [notifyEvents] <;> (try split) <;> simp_all

/-! ## Helpers about id-unique item lists -/

theorem commit_fst (b : Bool) (s : ModelState) : (commit b s).1 = s := by
  cases b <;> rfl

theorem commit_changed (b : Bool) (s : ModelState) : (commit b s).2.1 = b := by
  cases b <;> rfl

theorem any_id_of_mem {todos : List Item} {t : Item} (ht : t ∈ todos) :
    todos.any (fun u => u.id == t.id) = true :=
  List.any_eq_true.mpr ⟨t, ht, by simp⟩

theorem find?_id_of_nodup {todos : List Item} {t : Item}
    (hnd : (todos.map Item.id).Nodup) (ht : t ∈ todos) :
    todos.find? (fun u => u.id == t.id) = some t := by
  induction todos with
  | nil => cases ht
  | cons a rest ih =>
    simp only [List.map_cons, List.nodup_cons] at hnd
    rcases List.mem_cons.mp ht with rfl | hrest
    · simp [List.find?_cons]
    · have hne : (a.id == t.id) = false := by
        simp only [beq_eq_false_iff_ne, ne_eq]
        intro heq
        exact hnd.1 (heq ▸ List.mem_map_of_mem Item.id hrest)
      simp [List.find?_cons, hne, ih hnd.2 hrest]

theorem countP_id_of_nodup {todos : List Item} {t : Item} (q : Item → Bool)
    (hnd : (todos.map Item.id).Nodup) (ht : t ∈ todos) :
    todos.countP (fun u => u.id == t.id && q u) = if q t then 1 else 0 := by
  induction todos with
  | nil => cases ht
  | cons a rest ih =>
    simp only [List.map_cons, List.nodup_cons] at hnd
    rcases List.mem_cons.mp ht with rfl | hrest
    · have hzero : rest.countP (fun u => u.id == t.id && q u) = 0 := by
        refine List.countP_eq_zero.mpr fun u hu => ?_
        have hne : (u.id == t.id) = false := by
          simp only [beq_eq_false_iff_ne, ne_eq]
          intro hequ
          exact hnd.1 (hequ ▸ List.mem_map_of_mem Item.id hu)
        simp [hne]
      cases hq : q t <;> simp [List.countP_cons, hzero, hq]
    · have hne : (a.id == t.id) = false := by
        simp only [beq_eq_false_iff_ne, ne_eq]
        intro hequ
        exact hnd.1 (hequ ▸ List.mem_map_of_mem Item.id hrest)
      simp [List.countP_cons, hne, ih hnd.2 hrest]

theorem find?_map_of_id_preserving {g : Item → Item}
    (hg : ∀ u, (g u).id = u.id) (i : Nat) (todos : List Item) :
    (todos.map g).find? (fun u => u.id == i) =
      (todos.find? (fun u => u.id == i)).map g := by
  induction todos with
  | nil => rfl
  | cons a rest ih =>
    by_cases h : (a.id == i) = true
    · simp [List.find?_cons, hg a, h]
    · simp only [Bool.not_eq_true] at h
      simp [List.find?_cons, hg a, h, ih]

/-! ## Closed-form state lemmas for the operations -/

theorem toggleComplete_state (id : Nat) (s : ModelState) :
    (toggleComplete id s).1 =
      { s with todos := s.todos.map (toggleApply id),
               completedTotal :=
                 s.completedTotal + s.todos.countP (toggleCounts id) } := by
  simp only [toggleComplete, toggleMap_eq, commit_fst]
  rcases hany : s.todos.any (fun t => t.id == id) with _ | _
  · have hzero : s.todos.countP (toggleCounts id) = 0 := by
      refine List.countP_eq_zero.mpr fun u hu => ?_
      have h' : (u.id == id) = false := by
        have := List.any_eq_false.mp hany u hu
        simpa using this
      simp [toggleCounts, h']
    simp [hany, hzero]
  · simp [hany]

theorem toggleComplete_changed (id : Nat) (s : ModelState) :
    (toggleComplete id s).2.1 = s.todos.any (fun t => t.id == id) := by
  simp only [toggleComplete, toggleMap_eq, commit_changed]

theorem deleteTodo_total (id : Nat) (s : ModelState) :
    ((deleteTodo id s).1).completedTotal = s.completedTotal := by
  simp only [deleteTodo, commit_fst]
  split <;> rfl

theorem deleteTodo_state_of_mem {id : Nat} {s : ModelState} {t : Item}
    (ht : t ∈ s.todos) (hid : t.id = id) :
    (deleteTodo id s).1 =
      { s with todos := s.todos.filter (fun todo => todo.id != id) } := by
  have hlt : (s.todos.filter (fun todo => todo.id != id)).length <
      s.todos.length :=
    List.length_filter_lt_length_iff_exists.mpr ⟨t, ht, by simp [hid]⟩
  have hch : ((s.todos.filter (fun todo => todo.id != id)).length
      != s.todos.length) = true := by
    simp [Nat.ne_of_lt hlt]
  simp only [deleteTodo, hch, commit_fst, if_pos]

theorem map_id_map_toggleApply (id : Nat) (todos : List Item) :
    ((todos.map (toggleApply id)).map Item.id) = todos.map Item.id := by
  rw [List.map_map]
  exact List.map_congr_left fun a _ => toggleApply_id id a

theorem toggle_total_of_mem {s : ModelState} {t : Item}
    (hnd : (s.todos.map Item.id).Nodup) (hmem : t ∈ s.todos) :
    ((toggleComplete t.id s).1).completedTotal =
      s.completedTotal + (if !t.completed && !t.wasCounted then 1 else 0) := by
  rw [toggleComplete_state]
  have hcong : s.todos.countP (toggleCounts t.id) =
      s.todos.countP (fun u => u.id == t.id && (!u.completed && !u.wasCounted)) :=
    List.countP_congr fun a _ => by simp [toggleCounts, Bool.and_assoc]
  have := countP_id_of_nodup (fun u => !u.completed && !u.wasCounted) hnd hmem
  simp only [hcong, this]

theorem toggle_todos (id : Nat) (s : ModelState) :
    ((toggleComplete id s).1).todos = s.todos.map (toggleApply id) := by
  rw [toggleComplete_state]

end TodoSpec

namespace TodoSpec

/-- Claim C1: toggling an item that is present, incomplete and not yet
counted to complete, back to incomplete, and to complete again increases
`completedTotal` by exactly 1 over the whole sequence — the increment happens
only on the first incomplete-to-complete flip (`wasCounted` is false there)
and `wasCounted` stays true once set, so the later re-completion adds
nothing. -/
theorem C1_toggle_three_times_counts_once (s : ModelState) (t : Item)
    (hmem : t ∈ s.todos) (hnd : (s.todos.map Item.id).Nodup)
    (hc : t.completed = false) (hw : t.wasCounted = false) :
    ((toggleComplete t.id s).1).completedTotal = s.completedTotal + 1 ∧
    ((toggleComplete t.id ((toggleComplete t.id s).1)).1).completedTotal =
      s.completedTotal + 1 ∧
    ((toggleComplete t.id ((toggleComplete t.id
        ((toggleComplete t.id s).1)).1)).1).completedTotal =
      s.completedTotal + 1 := by
  have ht1 : toggleApply t.id t = { t with completed := true, wasCounted := true } := by
    simp [toggleApply, toggleItem, hc, hw]
  have ht2 : toggleApply t.id { t with completed := true, wasCounted := true } =
      { t with completed := false, wasCounted := true } := by
    simp [toggleApply, toggleItem]
  have h1 : ((toggleComplete t.id s).1).completedTotal = s.completedTotal + 1 := by
    rw [toggle_total_of_mem hnd hmem, hc, hw]
    simp
  have hnd1 : (((toggleComplete t.id s).1).todos.map Item.id).Nodup := by
    rw [toggle_todos, map_id_map_toggleApply]
    exact hnd
  have hmem1 : ({ t with completed := true, wasCounted := true } : Item) ∈
      ((toggleComplete t.id s).1).todos := by
    rw [toggle_todos]
    exact ht1 ▸ List.mem_map_of_mem (toggleApply t.id) hmem
  have h2 : ((toggleComplete t.id ((toggleComplete t.id s).1)).1).completedTotal =
      s.completedTotal + 1 := by
    have := toggle_total_of_mem hnd1 hmem1
    simp only [this, h1]
    simp
  have hnd2 : (((toggleComplete t.id ((toggleComplete t.id s).1)).1).todos.map
      Item.id).Nodup := by
    rw [toggle_todos, map_id_map_toggleApply]
    exact hnd1
  have hmem2 : ({ t with completed := false, wasCounted := true } : Item) ∈
      ((toggleComplete t.id ((toggleComplete t.id s).1)).1).todos := by
    rw [toggle_todos]
    exact ht2 ▸ List.mem_map_of_mem (toggleApply t.id) hmem1
  refine ⟨h1, h2, ?_⟩
  have := toggle_total_of_mem hnd2 hmem2
  simp only [this, h2]
  simp

/-- Witness for C1 at a concrete one-item store. -/
theorem C1_witness :
    ((toggleComplete 1 ((toggleComplete 1 ((toggleComplete 1
        { todos := [{ id := 1, text := "task", completed := false,
                      createdAt := "t0", wasCounted := false }],
          nextId := 2, completedTotal := 0, listeners := [] }).1)).1)).1).completedTotal
      = 0 + 1 :=
  (C1_toggle_three_times_counts_once
    { todos := [{ id := 1, text := "task", completed := false,
                  createdAt := "t0", wasCounted := false }],
      nextId := 2, completedTotal := 0, listeners := [] }
    { id := 1, text := "task", completed := false, createdAt := "t0",
      wasCounted := false }
    (by decide) (by decide) (by decide) (by decide)).2.2

/-- How many times the side-effect list invokes listener `l`. -/
def notifyCount (l : Nat) (evs : List Event) : Nat :=
  evs.countP (fun e => e == Event.notifyListener l)

theorem notifyCount_persistEvents (l : Nat) (s : ModelState) :
    notifyCount l (persistEvents s) = 0 := by
  simp [notifyCount, persistEvents]

theorem notifyCount_map (l : Nat) (ls : List Nat) :
    notifyCount l (ls.map Event.notifyListener) = ls.count l := by
  simp only [notifyCount, List.countP_map]
  rw [List.count]
  refine List.countP_congr fun x _ => ?_
  simp [Function.comp]

/-- Claim C2: a mutation that reports no change returns `false`, writes
nothing to the storage collaborator and invokes no subscriber (in particular
`updateTodo` with text whose trimmed value equals the current text); a
mutation that reports a change persists the full snapshot, then invokes every
current subscriber exactly once, then returns `true`, in that order. -/
theorem C2_commit_protocol (op : Op) (s : ModelState) :
    ((step op s).2.1 = false →
      (step op s).1 = s ∧ (step op s).2.2 = []) ∧
    ((step op s).2.1 = true →
      (step op s).2.2 =
        persistEvents (step op s).1 ++
          ((step op s).1.listeners.map Event.notifyListener) ∧
      (step op s).1.listeners = s.listeners) ∧
    (s.listeners.Nodup → ∀ l ∈ s.listeners,
      notifyCount l (step op s).2.2 = if (step op s).2.1 then 1 else 0) := by
  refine ⟨step_no_change op s, step_committed op s, fun hnd l hl => ?_⟩
  rcases hch : (step op s).2.1 with _ | _
  · rw [(step_no_change op s hch).2]
    simp [notifyCount]
  · obtain ⟨hev, hls⟩ := step_committed op s hch
    rw [hev, hls]
    simp only [notifyCount, List.countP_append]
    have h0 := notifyCount_persistEvents l (step op s).1
    have h1 := notifyCount_map l s.listeners
    simp only [notifyCount] at h0 h1
    rw [h0, h1, List.count_eq_one_of_mem hnd hl]
    simp

/-- Witness for C2: `updateTodo` with identical trimmed text on a concrete
one-item store with one subscriber reports no change, keeps the state, and
produces no storage write and no notification. -/
theorem C2_witness :
    (step (Op.update 1 (JSVal.str "  Task  "))
        { todos := [{ id := 1, text := "Task", completed := false,
                      createdAt := "t0", wasCounted := false }],
          nextId := 2, completedTotal := 0, listeners := [7] }).1 =
      { todos := [{ id := 1, text := "Task", completed := false,
                    createdAt := "t0", wasCounted := false }],
        nextId := 2, completedTotal := 0, listeners := [7] } ∧
    (step (Op.update 1 (JSVal.str "  Task  "))
        { todos := [{ id := 1, text := "Task", completed := false,
                      createdAt := "t0", wasCounted := false }],
          nextId := 2, completedTotal := 0, listeners := [7] }).2.2 = [] :=
  (C2_commit_protocol (Op.update 1 (JSVal.str "  Task  "))
    { todos := [{ id := 1, text := "Task", completed := false,
                  createdAt := "t0", wasCounted := false }],
      nextId := 2, completedTotal := 0, listeners := [7] }).1 (by decide)

theorem addTodo_fst_of_ne {v : JSVal} {now : String} {s : ModelState}
    (h : jsToTrimmed v ≠ "") :
    (addTodo v now s).1 =
      { s with nextId := s.nextId + 1,
               todos := s.todos ++
                 [{ id := s.nextId, text := jsToTrimmed v, completed := false,
                    createdAt := now, wasCounted := false }] } := by
  simp only [addTodo]
  rw [if_neg h, commit_fst]

theorem addTodo_changed_of_ne {v : JSVal} {now : String} {s : ModelState}
    (h : jsToTrimmed v ≠ "") : (addTodo v now s).2.1 = true := by
  simp only [addTodo]
  rw [if_neg h, commit_changed]

theorem addTodo_empty {v : JSVal} {now : String} {s : ModelState}
    (h : jsToTrimmed v = "") : addTodo v now s = (s, false, []) := by
  simp only [addTodo]
  rw [if_pos h]

/-- Claim C3: `clearAll` returns `false` exactly on the pristine store (empty
list and `nextId = 1`) and leaves it untouched; otherwise it returns `true`
and resets `items` to empty, `nextId` to 1 and `completedTotal` to 0, so the
next successfully added item receives id 1 (in either case). -/
theorem C3_clearAll_resets (s : ModelState) :
    ((clearAll s).2.1 = false ↔ s.todos = [] ∧ s.nextId = 1) ∧
    ((clearAll s).2.1 = false → (clearAll s).1 = s) ∧
    ((clearAll s).2.1 = true →
      ((clearAll s).1).todos = [] ∧ ((clearAll s).1).nextId = 1 ∧
        ((clearAll s).1).completedTotal = 0) ∧
    (∀ txt now, jsTrim txt ≠ "" →
      ((addTodo (JSVal.str txt) now (clearAll s).1).1).todos.map Item.id = [1]) := by
  by_cases h : s.todos.length = 0 ∧ s.nextId = 1
  · have hnil : s.todos = [] := List.length_eq_zero.mp h.1
    have hfst : clearAll s = (s, false, []) := by
      simp only [clearAll]
      rw [if_pos h]
    refine ⟨by simp [hfst, hnil, h.2], fun _ => by simp [hfst], ?_, ?_⟩
    · intro hch
      rw [hfst] at hch
      simp at hch
    · intro txt now htxt
      rw [hfst]
      have : jsToTrimmed (JSVal.str txt) ≠ "" := htxt
      rw [addTodo_fst_of_ne this]
      simp [hnil, h.2]
  · have hfst : clearAll s =
        commit true { s with todos := [], nextId := 1, completedTotal := 0 } := by
      simp only [clearAll]
      rw [if_neg h]
    rw [hfst, commit_true]
    refine ⟨?_, by simp, fun _ => by simp, ?_⟩
    · simp only [iff_false, Bool.true_eq_false, false_iff]
      intro hcon
      exact h ⟨by simp [hcon.1], hcon.2⟩
    · intro txt now htxt
      have : jsToTrimmed (JSVal.str txt) ≠ "" := htxt
      rw [addTodo_fst_of_ne this]
      simp

/-- Witness for C3 at a used-then-emptied store (`nextId = 3`): `clearAll`
reports a change and the next added item receives id 1. -/
theorem C3_witness :
    ((clearAll { todos := [], nextId := 3, completedTotal := 2, listeners := [] }).2.1 = true →
      ((clearAll { todos := [], nextId := 3, completedTotal := 2, listeners := [] }).1).todos = [] ∧
      ((clearAll { todos := [], nextId := 3, completedTotal := 2, listeners := [] }).1).nextId = 1 ∧
      ((clearAll { todos := [], nextId := 3, completedTotal := 2, listeners := [] }).1).completedTotal = 0) ∧
    ((addTodo (JSVal.str "Three") "t1"
      (clearAll { todos := [], nextId := 3, completedTotal := 2, listeners := [] }).1).1).todos.map Item.id = [1] :=
  ⟨(C3_clearAll_resets { todos := [], nextId := 3, completedTotal := 2, listeners := [] }).2.2.1,
   (C3_clearAll_resets { todos := [], nextId := 3, completedTotal := 2, listeners := [] }).2.2.2 "Three" "t1" (by decide)⟩

end TodoSpec

namespace TodoSpec

/-- A sequence of `addTodo` calls, left to right. -/
def runAdds (texts : List String) (now : String) (s : ModelState) : ModelState :=
  texts.foldl (fun st t => (addTodo (JSVal.str t) now st).1) s

theorem runAdds_ids (texts : List String) (now : String) (s : ModelState)
    (h : ∀ t ∈ texts, jsTrim t ≠ "") :
    (runAdds texts now s).todos.map Item.id =
        s.todos.map Item.id ++ List.range' s.nextId texts.length ∧
      (runAdds texts now s).nextId = s.nextId + texts.length := by
  induction texts generalizing s with
  | nil => simp [runAdds]
  | cons t ts ih =>
    have ht : jsToTrimmed (JSVal.str t) ≠ "" := h t (List.mem_cons_self t ts)
    have hstep : runAdds (t :: ts) now s =
        runAdds ts now ((addTodo (JSVal.str t) now s).1) := rfl
    rw [hstep, addTodo_fst_of_ne ht]
    obtain ⟨h1, h2⟩ := ih _ (fun u hu => h u (List.mem_cons_of_mem t hu))
    refine ⟨?_, by rw [h2]; simp; omega⟩
    rw [h1]
    simp only [List.map_append, List.map_cons, List.map_nil, List.length_cons,
      List.range'_succ, List.append_assoc, List.singleton_append]

/-- Claim C8: each successful `addTodo` assigns `id = nextId` and increments
`nextId`; a whole sequence of adds with non-empty trimmed text therefore
produces the consecutive ids `nextId, nextId+1, ...`, which are unique in the
store (given the store's id invariants); `addTodo('')` and `addTodo('   ')`
return `false` and leave the state untouched. -/
theorem C8_add_ids_sequential (s : ModelState) (texts : List String)
    (now : String) (h : ∀ t ∈ texts, jsTrim t ≠ "") :
    (runAdds texts now s).todos.map Item.id =
        s.todos.map Item.id ++ List.range' s.nextId texts.length ∧
    (runAdds texts now s).nextId = s.nextId + texts.length ∧
    ((∀ u ∈ s.todos, u.id < s.nextId) → (s.todos.map Item.id).Nodup →
      ((runAdds texts now s).todos.map Item.id).Nodup) ∧
    (∀ now2, addTodo (JSVal.str "") now2 s = (s, false, []) ∧
      addTodo (JSVal.str "   ") now2 s = (s, false, [])) ∧
    (∀ txt, jsTrim txt ≠ "" →
      ((addTodo (JSVal.str txt) now s).1).todos =
        s.todos ++ [{ id := s.nextId, text := jsTrim txt, completed := false,
                      createdAt := now, wasCounted := false }] ∧
      ((addTodo (JSVal.str txt) now s).1).nextId = s.nextId + 1) := by
  obtain ⟨hids, hnext⟩ := runAdds_ids texts now s h
  refine ⟨hids, hnext, ?_, ?_, ?_⟩
  · intro hlt hnd
    rw [hids, List.nodup_append]
    refine ⟨hnd, List.nodup_range' s.nextId texts.length, ?_⟩
    intro a ha hra
    obtain ⟨u, hu, hua⟩ := List.mem_map.mp ha
    have h1 : s.nextId ≤ a := (List.mem_range'_1.mp hra).1
    have h2 : a < s.nextId := hua ▸ hlt u hu
    omega
  · intro now2
    exact ⟨addTodo_empty (by decide), addTodo_empty (by decide)⟩
  · intro txt htxt
    have ht : jsToTrimmed (JSVal.str txt) ≠ "" := htxt
    rw [addTodo_fst_of_ne ht]
    exact ⟨rfl, rfl⟩

/-- Witness for C8: three adds on a fresh store yield ids 1, 2, 3. -/
theorem C8_witness :
    (runAdds ["alpha", "beta", "gamma"] "t0"
        { todos := [], nextId := 1, completedTotal := 0, listeners := [] }).todos.map
      Item.id = [] ++ List.range' 1 3 :=
  (C8_add_ids_sequential
    { todos := [], nextId := 1, completedTotal := 0, listeners := [] }
    ["alpha", "beta", "gamma"] "t0" (by decide)).1

/-- A sequence of `deleteTodo` calls, left to right. -/
def runDeletes (ids : List Nat) (s : ModelState) : ModelState :=
  ids.foldl (fun st i => (deleteTodo i st).1) s

theorem runDeletes_total (ids : List Nat) (s : ModelState) :
    (runDeletes ids s).completedTotal = s.completedTotal := by
  induction ids generalizing s with
  | nil => rfl
  | cons i is ih =>
    have hstep : runDeletes (i :: is) s = runDeletes is ((deleteTodo i s).1) := rfl
    rw [hstep, ih, deleteTodo_total]

/-- Claim C9: `deleteTodo` never changes `completedTotal` (so in particular
never decreases it), and `completedCount` returns the lifetime counter
`completedTotal` no matter how many deletions have happened. -/
theorem C9_delete_keeps_lifetime_count (s : ModelState) :
    (∀ id, ((deleteTodo id s).1).completedTotal = s.completedTotal) ∧
    (∀ ids, completedCount (runDeletes ids s) = completedCount s) ∧
    completedCount s = s.completedTotal :=
  ⟨fun id => deleteTodo_total id s,
   fun ids => runDeletes_total ids s,
   rfl⟩

/-- Claim C10: a non-string `text` / `newText` argument is coerced to the
empty string before the non-empty check, so `addTodo` and `updateTodo` return
`false` with the state untouched and no side effect (and, being total
functions, no exception). -/
theorem C10_nonstring_input_rejected (s : ModelState) (v : JSVal)
    (now : String) (id : Nat) (h : v.isStr = false) :
    addTodo v now s = (s, false, []) ∧ updateTodo id v s = (s, false, []) := by
  have hv : jsToTrimmed v = "" := by
    cases v with
    | str t => simp [JSVal.isStr] at h
    | num n => rfl
    | undefined => rfl
    | null => rfl
    | obj => rfl
  refine ⟨addTodo_empty hv, ?_⟩
  simp only [updateTodo]
  rw [if_pos hv]

/-- Witness for C10 with `null` on a concrete populated store. -/
theorem C10_witness :
    addTodo JSVal.null "t9"
        { todos := [{ id := 1, text := "keep", completed := false,
                      createdAt := "t0", wasCounted := false }],
          nextId := 2, completedTotal := 0, listeners := [] } =
      ({ todos := [{ id := 1, text := "keep", completed := false,
                     createdAt := "t0", wasCounted := false }],
         nextId := 2, completedTotal := 0, listeners := [] }, false, []) ∧
    updateTodo 1 JSVal.null
        { todos := [{ id := 1, text := "keep", completed := false,
                      createdAt := "t0", wasCounted := false }],
          nextId := 2, completedTotal := 0, listeners := [] } =
      ({ todos := [{ id := 1, text := "keep", completed := false,
                     createdAt := "t0", wasCounted := false }],
         nextId := 2, completedTotal := 0, listeners := [] }, false, []) :=
  C10_nonstring_input_rejected
    { todos := [{ id := 1, text := "keep", completed := false,
                  createdAt := "t0", wasCounted := false }],
      nextId := 2, completedTotal := 0, listeners := [] }
    JSVal.null "t9" 1 (by decide)

end TodoSpec

namespace TodoSpec

theorem setAdd_mem_self (ls : List Nat) (l : Nat) : l ∈ setAdd ls l := by
  by_cases h : l ∈ ls
  · simp [setAdd, h]
  · simp [setAdd, h]

theorem setAdd_absorb (ls : List Nat) (l : Nat) :
    setAdd (setAdd ls l) l = setAdd ls l := by
  by_cases h : l ∈ ls
  · simp [setAdd, h]
  · simp [setAdd, h]

/-- Counterexample to claim C5 as stated: subscribing the same callback
(identity 0) twice collapses into a single `Set` entry, so the two returned
unsubscribe closures are not independent — running just one of them removes
the only registration and a subsequent committed `addTodo` no longer notifies
the callback at all. -/
theorem C5_counterexample :
    (subscribe 0 (subscribe 0 { todos := [], nextId := 1, completedTotal := 0, listeners := [] })).listeners = [0] ∧
    (runUnsubscribe 0 (subscribe 0 (subscribe 0 { todos := [], nextId := 1, completedTotal := 0, listeners := [] }))).listeners = [] ∧
    notifyCount 0 (step (Op.add (JSVal.str "task") "t1") (runUnsubscribe 0 (subscribe 0 (subscribe 0 { todos := [], nextId := 1, completedTotal := 0, listeners := [] })))).2.2 = 0 := by
  decide

/-- Claim C5 (amended): `subscribe` registers the callback, which is then
invoked exactly once on every committed mutation; the unsubscribe closure
removes exactly that callback and no other; subscriptions of distinct
callbacks are independent; but because the listener store is a JS `Set` keyed
on function identity, subscribing the same callback a second time is absorbed
into the existing registration (the registrations are not independent). -/
theorem C5_subscribe_amended (s : ModelState) (l m : Nat) (op : Op) :
    l ∈ (subscribe l s).listeners ∧
    subscribe l (subscribe l s) = subscribe l s ∧
    l ∉ (runUnsubscribe l s).listeners ∧
    (m ≠ l → ((m ∈ (runUnsubscribe l s).listeners) ↔ m ∈ s.listeners)) ∧
    (l ∈ s.listeners → s.listeners.Nodup → (step op s).2.1 = true →
      notifyCount l (step op s).2.2 = 1) := by
  refine ⟨setAdd_mem_self s.listeners l, ?_, ?_, ?_, ?_⟩
  · simp [subscribe, setAdd_absorb]
  · simp [runUnsubscribe]
  · intro hm
    simp [runUnsubscribe, List.mem_filter, hm]
  · intro hl hnd hch
    obtain ⟨hev, hls⟩ := step_committed op s hch
    rw [hev, hls]
    simp only [notifyCount, List.countP_append]
    have h0 := notifyCount_persistEvents l (step op s).1
    have h1 := notifyCount_map l s.listeners
    simp only [notifyCount] at h0 h1
    rw [h0, h1, List.count_eq_one_of_mem hnd hl]

/-- Witness for C5 (amended) on a concrete store with listeners 3 and 4:
listener 3 is notified exactly once by a committed add after listener 4
unsubscribed. -/
theorem C5_witness :
    (3 ∈ ({ todos := [], nextId := 1, completedTotal := 0, listeners := [3] } : ModelState).listeners → ({ todos := [], nextId := 1, completedTotal := 0, listeners := [3] } : ModelState).listeners.Nodup → (step (Op.add (JSVal.str "task") "t1") { todos := [], nextId := 1, completedTotal := 0, listeners := [3] }).2.1 = true →
      notifyCount 3 (step (Op.add (JSVal.str "task") "t1") { todos := [], nextId := 1, completedTotal := 0, listeners := [3] }).2.2 = 1) ∧
    (4 ∈ (runUnsubscribe 3 { todos := [], nextId := 1, completedTotal := 0, listeners := [3, 4] } : ModelState).listeners ↔ 4 ∈ ({ todos := [], nextId := 1, completedTotal := 0, listeners := [3, 4] } : ModelState).listeners) :=
  ⟨(C5_subscribe_amended { todos := [], nextId := 1, completedTotal := 0, listeners := [3] } 3 4 (Op.add (JSVal.str "task") "t1")).2.2.2.2,
   (C5_subscribe_amended { todos := [], nextId := 1, completedTotal := 0, listeners := [3, 4] } 3 4 (Op.add (JSVal.str "task") "t1")).2.2.2.1 (by decide)⟩

end TodoSpec

namespace TodoSpec

theorem jsStartsWith_buildKey_sep (sk suf : String) :
    jsStartsWith (buildKey sk suf) (sk ++ "_") = true := by
  simp only [jsStartsWith, buildKey, String.data_append,
    List.isPrefixOf_iff_prefix]
  exact List.prefix_append _ _

theorem jsStartsWith_buildKey_raw (sk suf : String) :
    jsStartsWith (buildKey sk suf) sk = true := by
  simp only [jsStartsWith, buildKey, String.data_append,
    List.isPrefixOf_iff_prefix]
  rw [List.append_assoc]
  exact List.prefix_append _ _

theorem buildKey_ne_empty (sk suf : String) : buildKey sk suf ≠ "" := by
  intro h
  have hd := congrArg String.data h
  have hu : ("_" : String).data = ['_'] := rfl
  simp only [buildKey, String.data_append, hu] at hd
  simp [List.append_eq_nil] at hd

theorem foldl_remove_mem (keys : List String)
    (backing : List (String × String)) (kv : String × String) :
    kv ∈ keys.foldl (fun b k => b.filter (fun x => x.1 != k)) backing ↔
      kv ∈ backing ∧ kv.1 ∉ keys := by
  induction keys generalizing backing with
  | nil => simp
  | cons k ks ih =>
    simp only [List.foldl_cons, ih, List.mem_filter, bne_iff_ne,
      List.mem_cons]
    constructor
    · rintro ⟨⟨hmem, hne⟩, hks⟩
      exact ⟨hmem, fun hc => hc.elim hne hks⟩
    · rintro ⟨hmem, hnot⟩
      exact ⟨⟨hmem, fun hc => hnot (Or.inl hc)⟩, fun hc => hnot (Or.inr hc)⟩

theorem storageClear_mem (sk : String) (backing : List (String × String))
    (kv : String × String) :
    kv ∈ storageClear sk backing ↔
      kv ∈ backing ∧ ¬(kv.1 ≠ "" ∧ jsStartsWith kv.1 sk = true) := by
  simp only [storageClear, foldl_remove_mem]
  constructor
  · rintro ⟨hmem, hnot⟩
    refine ⟨hmem, fun hc => hnot ?_⟩
    refine List.mem_filter.mpr ⟨List.mem_map_of_mem Prod.fst hmem, ?_⟩
    simp [hc.1, hc.2]
  · rintro ⟨hmem, hnot⟩
    refine ⟨hmem, fun hc => hnot ?_⟩
    have := (List.mem_filter.mp hc).2
    simp only [Bool.and_eq_true, bne_iff_ne, ne_eq] at this
    exact ⟨this.1, this.2⟩

/-- Counterexample to claim C6 as stated: with namespace `todos`, the backing
key `todosX` is not of the form `todos_<suffix>` written by `save`, yet
`clear` removes it, because the code matches on `startsWith('todos')` without
the underscore separator. -/
theorem C6_counterexample :
    (∀ suf, ("todosX" : String) ≠ buildKey "todos" suf) ∧
    ("todosX", "keep") ∈
      ([("todos_items", "a"), ("todosX", "keep")] : List (String × String)) ∧
    ("todosX", "keep") ∉
      storageClear "todos" [("todos_items", "a"), ("todosX", "keep")] := by
  refine ⟨fun suf h => ?_, by decide, by decide⟩
  have hpre := jsStartsWith_buildKey_sep "todos" suf
  rw [← h] at hpre
  exact absurd hpre (by decide)

/-- Claim C6 (amended): `clear` removes exactly the non-empty backing keys
that start with the raw `storageKey` string.  Every key written by `save`
(of the form `storageKey + '_' + suffix`) is removed, and every key that does
not start with `storageKey` is untouched — but a key that starts with
`storageKey` without the `'_'` separator (outside this store's namespace) is
removed as well. -/
theorem C6_clear_prefix_amended (sk : String)
    (backing : List (String × String)) :
    (∀ kv : String × String, kv ∈ storageClear sk backing ↔
      kv ∈ backing ∧ ¬(kv.1 ≠ "" ∧ jsStartsWith kv.1 sk = true)) ∧
    (∀ suf v, (buildKey sk suf, v) ∈ backing →
      (buildKey sk suf, v) ∉ storageClear sk backing) ∧
    (∀ kv : String × String, kv ∈ backing → jsStartsWith kv.1 sk = false →
      kv ∈ storageClear sk backing) := by
  refine ⟨storageClear_mem sk backing, ?_, ?_⟩
  · intro suf v hmem hc
    have := ((storageClear_mem sk backing _).mp hc).2
    exact this ⟨buildKey_ne_empty sk suf, jsStartsWith_buildKey_raw sk suf⟩
  · intro kv hmem hsw
    refine (storageClear_mem sk backing kv).mpr ⟨hmem, ?_⟩
    rintro ⟨-, hc⟩
    rw [hsw] at hc
    cases hc

/-- Witness for C6 (amended): on a concrete backing store, the saved key
`todos_items` is removed while `other` survives. -/
theorem C6_witness :
    ((buildKey "todos" "items", "[]") ∉
      storageClear "todos"
        [(buildKey "todos" "items", "[]"), ("other", "keep")]) ∧
    ("other", "keep") ∈
      storageClear "todos"
        [(buildKey "todos" "items", "[]"), ("other", "keep")] :=
  ⟨(C6_clear_prefix_amended "todos"
      [(buildKey "todos" "items", "[]"), ("other", "keep")]).2.1 "items" "[]"
      (by decide),
   (C6_clear_prefix_amended "todos"
      [(buildKey "todos" "items", "[]"), ("other", "keep")]).2.2
      ("other", "keep") (by decide) (by decide)⟩

end TodoSpec

namespace TodoSpec

theorem toItem_toStored (t : Item) : (Item.toStored t).toItem = t := rfl

theorem foldl_applyEvent_notify (ls : List Nat) (σ : StorageState) :
    (ls.map Event.notifyListener).foldl applyEvent σ = σ := by
  induction ls generalizing σ with
  | nil => rfl
  | cons l ls ih => simpa [applyEvent] using ih σ

theorem foldl_applyEvent_persist (s : ModelState) (σ : StorageState) :
    (persistEvents s).foldl applyEvent σ =
      { items := some (s.todos.map Item.toStored), nextId := some s.nextId,
        completedTotal := some s.completedTotal } := rfl

theorem loadModel_snapshot (s : ModelState) (h : 1 ≤ s.nextId) :
    loadModel { items := some (s.todos.map Item.toStored),
                nextId := some s.nextId,
                completedTotal := some s.completedTotal } =
      { todos := s.todos, nextId := s.nextId,
        completedTotal := s.completedTotal, listeners := [] } := by
  have htodos : (s.todos.map Item.toStored).map StoredItem.toItem = s.todos := by
    rw [List.map_map]
    exact map_eq_self_of_fixed fun t _ => toItem_toStored t
  have hnext : jsParsedOr s.nextId 1 = s.nextId := by
    unfold jsParsedOr
    rw [if_neg (by omega)]
  have htotal : jsParsedOr s.completedTotal 0 = s.completedTotal := by
    unfold jsParsedOr
    split <;> omega
  simp [loadModel, htodos, hnext, htotal]

theorem loadModel_nextId_pos (σ : StorageState) : 1 ≤ (loadModel σ).nextId := by
  simp only [loadModel, jsParsedOr]
  split <;> omega

theorem step_nextId_pos (op : Op) (s : ModelState) (h : 1 ≤ s.nextId) :
    1 ≤ ((step op s).1).nextId := by
  cases op with
  | add text now =>
    simp only [step, addTodo]
    split
    · exact h
    · rw [commit_fst]
      simp
  | toggle id =>
    simp only [step, toggleComplete, commit_fst]
    split <;> exact h
  | delete id =>
    simp only [step, deleteTodo, commit_fst]
    split <;> exact h
  | update id text =>
    simp only [step, updateTodo]
    split
    · exact h
    · rw [commit_fst]
      exact h
  | clearCompleted =>
    simp only [step, clearCompleted, commit_fst]
    split <;> exact h
  | clearAll =>
    simp only [step, clearAll]
    split
    · exact h
    · rw [commit_fst]

theorem runPersist_inv (ops : List Op) (s : ModelState) (σ : StorageState)
    (hpos : 1 ≤ s.nextId)
    (ht : (loadModel σ).todos = s.todos)
    (hn : (loadModel σ).nextId = s.nextId)
    (hc : (loadModel σ).completedTotal = s.completedTotal) :
    1 ≤ ((runPersist ops (s, σ)).1).nextId ∧
    (loadModel (runPersist ops (s, σ)).2).todos = ((runPersist ops (s, σ)).1).todos ∧
    (loadModel (runPersist ops (s, σ)).2).nextId = ((runPersist ops (s, σ)).1).nextId ∧
    (loadModel (runPersist ops (s, σ)).2).completedTotal =
      ((runPersist ops (s, σ)).1).completedTotal := by
  induction ops generalizing s σ with
  | nil => exact ⟨hpos, ht, hn, hc⟩
  | cons op ops ih =>
    have hstep : runPersist (op :: ops) (s, σ) =
        runPersist ops (stepPersist op (s, σ)) := rfl
    rw [hstep]
    have hpos' : 1 ≤ ((step op s).1).nextId := step_nextId_pos op s hpos
    have hsp : stepPersist op (s, σ) =
        ((step op s).1, (step op s).2.2.foldl applyEvent σ) := rfl
    rcases hch : (step op s).2.1 with _ | _
    · obtain ⟨hs, hev⟩ := step_no_change op s hch
      rw [hsp, hs, hev]
      exact ih s σ hpos ht hn hc
    · obtain ⟨hev, -⟩ := step_committed op s hch
      have hσ : (step op s).2.2.foldl applyEvent σ =
          { items := some (((step op s).1).todos.map Item.toStored),
            nextId := some ((step op s).1).nextId,
            completedTotal := some ((step op s).1).completedTotal } := by
        rw [hev, List.foldl_append, foldl_applyEvent_persist,
          foldl_applyEvent_notify]
      have hload := loadModel_snapshot ((step op s).1) hpos'
      rw [hsp, hσ]
      exact ih ((step op s).1) _ hpos' (by rw [hload]) (by rw [hload])
        (by rw [hload])

/-- Claim C7: running any sequence of mutating operations on a store
constructed from storage, while threading every persisted snapshot into the
storage collaborator, and then constructing a fresh store from the resulting
storage, yields the same `items` sequence, `nextId` and `completedTotal` as
the original store. -/
theorem C7_persisted_snapshot_round_trip (ops : List Op) (σ0 : StorageState) :
    (loadModel (runPersist ops (loadModel σ0, σ0)).2).todos =
        ((runPersist ops (loadModel σ0, σ0)).1).todos ∧
    (loadModel (runPersist ops (loadModel σ0, σ0)).2).nextId =
        ((runPersist ops (loadModel σ0, σ0)).1).nextId ∧
    (loadModel (runPersist ops (loadModel σ0, σ0)).2).completedTotal =
        ((runPersist ops (loadModel σ0, σ0)).1).completedTotal :=
  (runPersist_inv ops (loadModel σ0) σ0 (loadModel_nextId_pos σ0)
    rfl rfl rfl).2

end TodoSpec

namespace TodoSpec

theorem unmark_pending_not_mem (id : Nat) (a : AppState) :
    id ∉ (unmarkPendingDeletion id a).pending := by
  unfold unmarkPendingDeletion
  split
  · intro hmem
    have := (List.mem_filter.mp hmem).2
    simp at this
  · next h =>
    intro hmem
    exact h (by simpa using hmem)

theorem unmark_timers_eq (id : Nat) (a : AppState) :
    (unmarkPendingDeletion id a).timers = a.timers := by
  unfold unmarkPendingDeletion
  split <;> rfl

theorem unmark_model_eq (id : Nat) (a : AppState) :
    (unmarkPendingDeletion id a).model = a.model := by
  unfold unmarkPendingDeletion
  split <;> rfl

theorem cancel_pending_not_mem (id : Nat) (a : AppState) :
    id ∉ (cancelAutoClear id a).pending :=
  unmark_pending_not_mem id _

theorem cancel_timers_not_mem (id : Nat) (a : AppState) :
    id ∉ (cancelAutoClear id a).timers := by
  unfold cancelAutoClear
  rw [unmark_timers_eq]
  split
  · intro hmem
    have := (List.mem_filter.mp hmem).2
    simp at this
  · next h =>
    intro hmem
    exact h (by simpa using hmem)

theorem cancel_model_eq (id : Nat) (a : AppState) :
    (cancelAutoClear id a).model = a.model := by
  unfold cancelAutoClear
  rw [unmark_model_eq]
  split <;> rfl

theorem schedule_model_eq (id : Nat) (a : AppState) :
    (scheduleAutoClear id a).model = a.model := by
  unfold scheduleAutoClear markPendingDeletion
  simp only
  rw [cancel_model_eq]

theorem toggleItem_completed (t : Item) :
    (toggleItem t).completed = !t.completed := by
  unfold toggleItem
  split
  · next h =>
    simp only [Bool.and_eq_true] at h
    simp [h.1]
  · rfl

theorem toggleItem_of_incomplete (t : Item) (hc : t.completed = false) :
    toggleItem t = { t with completed := true, wasCounted := true } := by
  cases hw : t.wasCounted <;> simp [toggleItem, hc, hw]

theorem handleToggleTodo_of_mem {a : AppState} {t : Item} {i : Nat}
    (hid : t.id = i) (hmem : t ∈ a.model.todos)
    (hnd : (a.model.todos.map Item.id).Nodup) :
    handleToggleTodo i a =
      if (toggleItem t).completed then
        scheduleAutoClear i { a with model := (toggleComplete i a.model).1 }
      else
        cancelAutoClear i { a with model := (toggleComplete i a.model).1 } := by
  subst hid
  have hch : (toggleComplete t.id a.model).2.1 = true := by
    rw [toggleComplete_changed]
    exact any_id_of_mem hmem
  have hfind : ((toggleComplete t.id a.model).1).todos.find?
      (fun u => u.id == t.id) = some (toggleItem t) := by
    rw [toggle_todos, find?_map_of_id_preserving (toggleApply_id t.id) t.id,
      find?_id_of_nodup hnd hmem]
    simp [toggleApply]
  simp only [handleToggleTodo, hch, Bool.not_true, Bool.false_eq_true,
    if_false, hfind]

/-- Claim C4: (a) toggling an incomplete item complete and back to incomplete
before the timer fires leaves the item present and incomplete, with its id
removed from the pending-deletion set and no armed timer left; (b) whenever
the timer does fire, the callback re-reads the item's current state, deletes
it only if it is still found and still completed, and in every case removes
the id from the pending set and drops the timer handle. -/
theorem C4_auto_clear_cancel_safe (a : AppState) (t : Item) (i : Nat)
    (hmem : t ∈ a.model.todos) (hnd : (a.model.todos.map Item.id).Nodup)
    (hc : t.completed = false) :
    ((∃ u ∈ (handleToggleTodo t.id (handleToggleTodo t.id a)).model.todos,
        u.id = t.id ∧ u.completed = false) ∧
      t.id ∉ (handleToggleTodo t.id (handleToggleTodo t.id a)).pending ∧
      t.id ∉ (handleToggleTodo t.id (handleToggleTodo t.id a)).timers) ∧
    (i ∉ (fireAutoClear i a).pending ∧
      (fireAutoClear i a).timers = a.timers.filter (fun x => x != i) ∧
      i ∉ (fireAutoClear i a).timers ∧
      (a.model.todos.find? (fun u => u.id == i) = none →
        (fireAutoClear i a).model = a.model) ∧
      (∀ u, a.model.todos.find? (fun u2 => u2.id == i) = some u →
        u.completed = false → (fireAutoClear i a).model = a.model) ∧
      (∀ u, a.model.todos.find? (fun u2 => u2.id == i) = some u →
        u.completed = true →
        (fireAutoClear i a).model = (deleteTodo i a.model).1 ∧
          ∀ w ∈ ((fireAutoClear i a).model).todos, w.id ≠ i)) := by
  constructor
  · -- part (a): toggle complete then incomplete before the delay elapses
    have h1 := handleToggleTodo_of_mem rfl hmem hnd
    rw [toggleItem_completed, hc] at h1
    simp only [Bool.not_false, if_true] at h1
    -- state after the first toggle: the item is completed and scheduled
    have hmodel1 : (handleToggleTodo t.id a).model =
        (toggleComplete t.id a.model).1 := by
      rw [h1, schedule_model_eq]
    have hnd1 : (((handleToggleTodo t.id a).model).todos.map Item.id).Nodup := by
      rw [hmodel1, toggle_todos, map_id_map_toggleApply]
      exact hnd
    have ht1 : toggleApply t.id t = { t with completed := true, wasCounted := true } := by
      rw [toggleApply, if_pos (by simp), toggleItem_of_incomplete t hc]
    have hmem1 : ({ t with completed := true, wasCounted := true } : Item) ∈
        ((handleToggleTodo t.id a).model).todos := by
      rw [hmodel1, toggle_todos]
      exact ht1 ▸ List.mem_map_of_mem (toggleApply t.id) hmem
    -- second toggle: the item is now completed, so the timer is cancelled
    have h2 := handleToggleTodo_of_mem (t := { t with completed := true, wasCounted := true })
      rfl hmem1 hnd1
    rw [toggleItem_completed] at h2
    simp only [Bool.not_true, Bool.false_eq_true, if_false] at h2
    rw [h2]
    refine ⟨?_, cancel_pending_not_mem _ _, cancel_timers_not_mem _ _⟩
    rw [cancel_model_eq]
    simp only [toggle_todos]
    refine ⟨toggleApply t.id { t with completed := true, wasCounted := true },
      List.mem_map_of_mem _ hmem1, ?_, ?_⟩
    · rw [toggleApply_id]
    · rw [toggleApply, if_pos (by simp), toggleItem_completed]
      rfl
  · -- part (b): the fire path re-checks the current state
    refine ⟨unmark_pending_not_mem i _, ?_, ?_, ?_, ?_, ?_⟩
    · rw [fireAutoClear, unmark_timers_eq]
    · rw [fireAutoClear, unmark_timers_eq]
      intro hmem2
      have := (List.mem_filter.mp hmem2).2
      simp at this
    · intro hnone
      rw [fireAutoClear, unmark_model_eq]
      simp only [hnone]
    · intro u hfind hu
      rw [fireAutoClear, unmark_model_eq]
      simp only [hfind, hu, Bool.false_eq_true, if_false]
    · intro u hfind hu
      have humem : u ∈ a.model.todos := List.mem_of_find?_eq_some hfind
      have huid : u.id = i := by
        have := List.find?_some hfind
        simpa using this
      have hmodel : (fireAutoClear i a).model = (deleteTodo i a.model).1 := by
        rw [fireAutoClear, unmark_model_eq]
        simp only [hfind, hu, if_true]
      refine ⟨hmodel, ?_⟩
      intro w hw
      rw [hmodel, deleteTodo_state_of_mem humem huid] at hw
      have := (List.mem_filter.mp hw).2
      simpa using this

/-- Witness for C4 on a concrete one-item store: completing then un-completing
item 1 leaves it present and incomplete with no pending flag or timer. -/
theorem C4_witness :
    ((∃ u ∈ (handleToggleTodo 1 (handleToggleTodo 1 { model := { todos := [{ id := 1, text := "task", completed := false, createdAt := "t0", wasCounted := false }], nextId := 2, completedTotal := 0, listeners := [] }, pending := [], timers := [] })).model.todos,
        u.id = 1 ∧ u.completed = false) ∧
      1 ∉ (handleToggleTodo 1 (handleToggleTodo 1 { model := { todos := [{ id := 1, text := "task", completed := false, createdAt := "t0", wasCounted := false }], nextId := 2, completedTotal := 0, listeners := [] }, pending := [], timers := [] })).pending ∧
      1 ∉ (handleToggleTodo 1 (handleToggleTodo 1 { model := { todos := [{ id := 1, text := "task", completed := false, createdAt := "t0", wasCounted := false }], nextId := 2, completedTotal := 0, listeners := [] }, pending := [], timers := [] })).timers) :=
  (C4_auto_clear_cancel_safe
    { model := { todos := [{ id := 1, text := "task", completed := false, createdAt := "t0", wasCounted := false }], nextId := 2, completedTotal := 0, listeners := [] }, pending := [], timers := [] }
    { id := 1, text := "task", completed := false, createdAt := "t0", wasCounted := false }
    1 (by decide) (by decide) (by decide)).1

end TodoSpec
